import Mathlib

/-!
Formal model of the xk6-mongo extension (`mongo.go`).

Conventions of the embedding:
* Go strings are modelled as `List Char` (all inputs of interest are ASCII);
  Go byte slices as `List Nat` whose elements are `< 256`.
* Fallible Go functions returning `(T, error)` become `Except`-valued Lean
  functions.
* External collaborators (the MongoDB driver, the `crypto/rand` entropy
  source, the Go standard library RFC 3339 parser) are either passed in as
  explicit oracle arguments or modelled executably from their sources and
  documented contracts, as noted on each definition.
-/

deriving instance DecidableEq for Except

namespace XK6Mongo

/-- A hexadecimal digit, the character class `[0-9a-fA-F]` of the UUID
regular expression in `ConvertStringToUuid` (character codes: `0`–`9` are
48–57, `a`–`f` are 97–102, `A`–`F` are 65–70). -/
def isHexDigit (c : Char) : Bool :=
  decide ((48 ≤ c.toNat ∧ c.toNat ≤ 57) ∨ (97 ≤ c.toNat ∧ c.toNat ≤ 102)
    ∨ (65 ≤ c.toNat ∧ c.toNat ≤ 70))

/-- Value of one hexadecimal digit, as in `fromHexChar` of Go's
`encoding/hex`: digits, then lower-case letters, then upper-case letters. -/
def hexDigitVal (c : Char) : Option Nat :=
  if 48 ≤ c.toNat ∧ c.toNat ≤ 57 then some (c.toNat - 48)
  else if 97 ≤ c.toNat ∧ c.toNat ≤ 102 then some (c.toNat - 97 + 10)
  else if 65 ≤ c.toNat ∧ c.toNat ≤ 70 then some (c.toNat - 65 + 10)
  else none

/-- Go's `encoding/hex` digit table `"0123456789abcdef"`. -/
def hextable : List Char :=
  "0123456789abcdef".data

/-- `hextable[v]`, the lower-case character of the nibble `v`. -/
def hexDigitChar (v : Nat) : Char :=
  hextable.getD v '0'

/-- Go's `hex.DecodeString`: consume the characters two at a time, failing on
a non-hex character or an odd-length input. -/
def hexDecode : List Char → Option (List Nat)
  | [] => some []
  | [_] => none
  | c1 :: c2 :: rest =>
    match hexDigitVal c1, hexDigitVal c2, hexDecode rest with
    | some hi, some lo, some bytes => some ((16 * hi + lo) :: bytes)
    | _, _, _ => none

/-- Go's `hex.EncodeToString`: each byte `b` becomes
`hextable[b>>4], hextable[b&0x0f]` (for bytes, `b>>4 = b / 16`). -/
def hexEncode : List Nat → List Char
  | [] => []
  | b :: rest => hexDigitChar (b / 16) :: hexDigitChar (b % 16) :: hexEncode rest

/-- `primitive.Binary` of the MongoDB Go driver: a subtype byte and a byte
slice payload. -/
structure Binary where
  Subtype : Nat
  Data : List Nat
deriving DecidableEq, Repr

/-- The error values produced in `mongo.go` (identified by their format
strings rather than by the interpolated message text). -/
inductive MongoError where
  /-- Go error `invalid UUID format: %s`. -/
  | formatError (input : List Char)
  /-- Go error `error decoding UUID string: %v`. -/
  | decodeError
  /-- Go error `unsupported binary subtype: %d`. -/
  | unsupportedSubtype (st : Nat)
  /-- Go error `invalid UUID binary length: expected 16 bytes, got %d`. -/
  | invalidLength (n : Nat)
  /-- Error returned by the external `time.Parse` call. -/
  | parseTimeError
  /-- Error returned by the external `crypto/rand.Read` call. -/
  | randReadError
deriving DecidableEq, Repr

/-- Consume exactly `n` characters of the class `[0-9a-fA-F]` from the front
of `s`, returning the capture group and the rest of the string.  This is how
the anchored expression
`^([0-9a-fA-F]{8})-?([0-9a-fA-F]{4})-?([0-9a-fA-F]{4})-?([0-9a-fA-F]{4})-?([0-9a-fA-F]{12})$`
consumes one capture group: the group lengths are fixed, so the match is
deterministic and this functional reading is exact. -/
def takeHex : Nat → List Char → Option (List Char × List Char)
  | 0, s => some ([], s)
  | _ + 1, [] => none
  | n + 1, c :: s =>
    if isHexDigit c then
      match takeHex n s with
      | some (g, r) => some (c :: g, r)
      | none => none
    else none

/-- Consume the optional dash `-?` between two capture groups.  A dash in
this position must be consumed when present (the following group starts with
a hex digit, never a dash), so the greedy reading is exact. -/
def skipDash : List Char → List Char
  | [] => []
  | c :: s => if c = '-' then s else c :: s

/-- `re.FindStringSubmatch` on the anchored UUID pattern, returning
`strings.Join(matches[1:], "")`: the five capture groups concatenated (the
input with its boundary dashes removed), or `none` when the whole string
does not match. -/
def uuidGroups (s : List Char) : Option (List Char) :=
  match takeHex 8 s with
  | none => none
  | some (g1, r1) =>
    match takeHex 4 (skipDash r1) with
    | none => none
    | some (g2, r2) =>
      match takeHex 4 (skipDash r2) with
      | none => none
      | some (g3, r3) =>
        match takeHex 4 (skipDash r3) with
        | none => none
        | some (g4, r4) =>
          match takeHex 12 (skipDash r4) with
          | none => none
          | some (g5, r5) =>
            if r5 = [] then some (g1 ++ g2 ++ g3 ++ g4 ++ g5) else none

/-- `ConvertStringToUuid` from `mongo.go`: match the UUID regular expression
(a dash is optional at each of the four group boundaries), join the capture
groups, hex-decode the 32 digits, and tag the bytes with subtype 4. -/
def ConvertStringToUuid (uuid : List Char) : Except MongoError Binary :=
  match uuidGroups uuid with
  | none => .error (.formatError uuid)
  | some cleanUUID =>
    match hexDecode cleanUUID with
    | none => .error .decodeError
    | some uuidBytes => .ok ⟨4, uuidBytes⟩

/-- The `fmt.Sprintf("%s-%s-%s-%s-%s", hexStr[0:8], hexStr[8:12],
hexStr[12:16], hexStr[16:20], hexStr[20:32])` step of
`ConvertUuidToString`. -/
def insertDashes (hexStr : List Char) : List Char :=
  hexStr.take 8 ++ ('-' :: ((hexStr.drop 8).take 4
    ++ ('-' :: ((hexStr.drop 12).take 4
      ++ ('-' :: ((hexStr.drop 16).take 4
        ++ ('-' :: (hexStr.drop 20).take 12)))))))

/-- `ConvertUuidToString` from `mongo.go`: require subtype 4 and a 16-byte
payload, hex-encode (lower-case), and insert the four dashes. -/
def ConvertUuidToString (bin : Binary) : Except MongoError (List Char) :=
  if bin.Subtype ≠ 4 then .error (.unsupportedSubtype bin.Subtype)
  else if bin.Data.length ≠ 16 then .error (.invalidLength bin.Data.length)
  else .ok (insertDashes (hexEncode bin.Data))

/-- `GenerateUuid` from `mongo.go`: `rand.Read` fills a fresh 16-byte buffer;
the outcome of that external entropy source is the oracle argument
(`.error` when the source fails, `.ok bytes` for the 16 bytes it wrote).
The bytes are used unmodified and tagged with subtype 4. -/
def GenerateUuid (randRead : Except MongoError (List Nat)) : Except MongoError Binary :=
  match randRead with
  | .error err => .error err
  | .ok uuid => .ok ⟨4, uuid⟩

/-- Lower-casing of one character, as the spec's "canonical lower-case
dashed form" requires: `A`–`F` (codes 65–70) map to `a`–`f` (add 32);
every other character is unchanged. -/
def toLowerHex (c : Char) : Char :=
  if 65 ≤ c.toNat ∧ c.toNat ≤ 70 then Char.ofNat (c.toNat + 32) else c

/-- The optional dash of one `-?` position of the UUID regular expression:
present (`true`) or absent (`false`). -/
def dashOpt : Bool → List Char
  | true => ['-']
  | false => []

/-- RFC 4122 well-formedness of a version-4 UUID in binary form: the version
nibble (high nibble of byte 6) is 4 and the variant bits (top two bits of
byte 8) are `10`.  `mongo.go` never sets these bits; this predicate is only
used to state that fact. -/
def isRfc4122Version4 (bin : Binary) : Bool :=
  bin.Data.getD 6 0 / 16 == 4 && bin.Data.getD 8 0 / 64 == 2

/-- An instant as the Go `time` package represents it once a parsed value is
reduced to absolute time: seconds since the Unix epoch plus a nanosecond
part. -/
structure GoTime where
  unixSec : Int
  nsec : Nat
deriving DecidableEq, Repr

/-- `isLeap` from the Go `time` package. -/
def isLeap (y : Nat) : Bool :=
  y % 4 == 0 && (y % 100 != 0 || y % 400 == 0)

/-- `daysIn(m, year)` from the Go `time` package: number of days of month
`m` (1–12) in `year`. -/
def daysIn (m : Nat) (year : Nat) : Nat :=
  if m = 2 then (if isLeap year then 29 else 28)
  else if m = 4 ∨ m = 6 ∨ m = 9 ∨ m = 11 then 30
  else 31

/-- Day count before the first day of month `m` (1–12) in a non-leap year. -/
def daysBeforeMonth (m : Nat) : Nat :=
  match m with
  | 1 => 0
  | 2 => 31
  | 3 => 59
  | 4 => 90
  | 5 => 120
  | 6 => 151
  | 7 => 181
  | 8 => 212
  | 9 => 243
  | 10 => 273
  | 11 => 304
  | _ => 334

/-- Days from 0000-01-01 to `year`-`month`-`day` in the proleptic Gregorian
calendar (the civil-day arithmetic underlying Go's `Date`). -/
def daysSinceYearZero (year month day : Nat) : Nat :=
  let leapYearsBefore := if year = 0 then 0
    else (year - 1) / 4 - (year - 1) / 100 + (year - 1) / 400 + 1
  365 * year + leapYearsBefore + daysBeforeMonth month
    + (if 2 < month ∧ isLeap year then 1 else 0) + (day - 1)

/-- Days from 0000-01-01 to 1970-01-01 (the Unix epoch). -/
def epochDays : Nat := 719528

/-- The instant assembled by Go's `Date(year, month, day, hour, min, sec,
nsec, UTC)` followed by `t.addSec(-zoneOffset)`. -/
def mkInstant (year month day hour minute sec nsec : Nat) (zoneOffset : Int) : GoTime :=
  ⟨((daysSinceYearZero year month day : Int) - (epochDays : Int)) * 86400
      + (hour : Int) * 3600 + (minute : Int) * 60 + (sec : Int) - zoneOffset,
    nsec⟩

/-- A decimal digit (codes 48–57), `isDigit` of the Go `time` package. -/
def isDigitChar (c : Char) : Bool :=
  decide (48 ≤ c.toNat ∧ c.toNat ≤ 57)

/-- Digit fold `x = x*10 + int(c) - '0'` of `parseUint` in Go's
`parseRFC3339`. -/
def digitsVal : List Char → Nat → Option Nat
  | [], acc => some acc
  | c :: s, acc =>
    if isDigitChar c then digitsVal s (acc * 10 + (c.toNat - 48)) else none

/-- `parseUint(s, lo, hi)` of Go's `parseRFC3339`: all characters must be
decimal digits and the value must lie in `[lo, hi]`. -/
def parseUintRange (s : List Char) (lo hi : Nat) : Option Nat :=
  match digitsVal s 0 with
  | none => none
  | some n => if lo ≤ n ∧ n ≤ hi then some n else none

/-- `parseNanoseconds` of the Go `time` package applied to a consumed
fraction `.d₁d₂…`: at most nine digits are kept (the rest are consumed but
ignored) and the value is scaled up to nanoseconds. -/
def nsecOfFraction (ds : List Char) : Nat :=
  let kept := ds.take 9
  (digitsVal kept 0).getD 0 * 10 ^ (9 - kept.length)

/-- The fractional-second step of Go's `parseRFC3339`: when the remainder
starts with `.` followed by a digit, consume the whole digit run and compute
the nanoseconds; otherwise leave the remainder untouched. -/
def splitFraction (s : List Char) : Nat × List Char :=
  match s with
  | '.' :: c :: rest =>
    if isDigitChar c then
      (nsecOfFraction (c :: rest.takeWhile isDigitChar), rest.dropWhile isDigitChar)
    else (0, s)
  | _ => (0, s)

/-- The time-zone step of Go's `parseRFC3339`: exactly `Z`, or exactly a
six-character `±hh:mm` offset (hours 0–23, minutes 0–59), returned in
seconds. -/
def parseZone (s : List Char) : Option Int :=
  match s with
  | ['Z'] => some 0
  | [sign, h1, h2, colon, m1, m2] =>
    if (sign = '-' ∨ sign = '+') ∧ colon = ':' then
      match parseUintRange [h1, h2] 0 23, parseUintRange [m1, m2] 0 59 with
      | some hr, some mm =>
        some (if sign = '-' then -(((hr * 60 + mm) * 60 : Nat) : Int)
          else (((hr * 60 + mm) * 60 : Nat) : Int))
      | _, _ => none
    else none
  | _ => none

/-- The strict fast path `parseRFC3339` of Go's `time.Parse`, translated
from the Go standard library: `yyyy-mm-ddThh:mm:ss`, an optional
`.fraction`, then `Z` or `±hh:mm`; the year is 0–9999, the day is checked
against the month length, and the result is the absolute instant.  The full
external call is modelled by `timeParseRFC3339` below, which adds the
lenient generic fallback Go runs when this fast path fails. -/
def parseRFC3339 (s : List Char) : Option GoTime :=
  match s with
  | y1 :: y2 :: y3 :: y4 :: sp1 :: mo1 :: mo2 :: sp2 :: d1 :: d2 :: spT
      :: h1 :: h2 :: sp3 :: mi1 :: mi2 :: sp4 :: se1 :: se2 :: rest =>
    if sp1 = '-' ∧ sp2 = '-' ∧ spT = 'T' ∧ sp3 = ':' ∧ sp4 = ':' then
      (parseUintRange [y1, y2, y3, y4] 0 9999).bind fun year =>
      (parseUintRange [mo1, mo2] 1 12).bind fun month =>
      (parseUintRange [d1, d2] 1 (daysIn month year)).bind fun day =>
      (parseUintRange [h1, h2] 0 23).bind fun hour =>
      (parseUintRange [mi1, mi2] 0 59).bind fun minute =>
      (parseUintRange [se1, se2] 0 59).bind fun sec =>
      (parseZone (splitFraction rest).2).bind fun zoneOffset =>
      some (mkInstant year month day hour minute sec (splitFraction rest).1 zoneOffset)
    else none
  | _ => none

/-- `getnum(s, true)` of Go's generic layout parser: exactly two decimal
digits, returning the value and the rest of the input. -/
def getnum2 : List Char → Option (Nat × List Char)
  | c1 :: c2 :: rest =>
    if isDigitChar c1 ∧ isDigitChar c2 then
      some ((c1.toNat - 48) * 10 + (c2.toNat - 48), rest)
    else none
  | _ => none

/-- `getnum(s, false)` of Go's generic layout parser: one decimal digit,
or two when the second character is also a digit (this is how the `15`
hour token accepts a single-digit hour). -/
def getnum1or2 : List Char → Option (Nat × List Char)
  | [] => none
  | c1 :: rest =>
    if isDigitChar c1 then
      match rest with
      | c2 :: rest2 =>
        if isDigitChar c2 then
          some ((c1.toNat - 48) * 10 + (c2.toNat - 48), rest2)
        else some (c1.toNat - 48, rest)
      | [] => some (c1.toNat - 48, [])
    else none

/-- The `stdLongYear` token of Go's generic layout parser: the first
character must be a digit and `atoi` of the first four characters must
succeed, i.e. four decimal digits. -/
def getYear4 : List Char → Option (Nat × List Char)
  | y1 :: y2 :: y3 :: y4 :: rest =>
    match digitsVal [y1, y2, y3, y4] 0 with
    | some n => some (n, rest)
    | none => none
  | _ => none

/-- A literal layout character of Go's generic layout parser: the input
must start with exactly that character. -/
def expectChar (c : Char) : List Char → Option (List Char)
  | x :: rest => if x = c then some rest else none
  | [] => none

/-- The fractional-second special case of Go's generic layout parser after
the seconds token: unlike the strict fast path it accepts a comma as well
as a period as the separator (`commaOrPeriod`). -/
def splitFractionLenient (s : List Char) : Nat × List Char :=
  match s with
  | sep :: c :: rest =>
    if (sep = '.' ∨ sep = ',') ∧ isDigitChar c then
      (nsecOfFraction (c :: rest.takeWhile isDigitChar), rest.dropWhile isDigitChar)
    else (0, s)
  | _ => (0, s)

/-- The `Z07:00` (`stdISO8601ColonTZ`) token of Go's generic layout parser:
`Z`, or `±hh:mm` where the hour and minute are two digits each but — unlike
the strict fast path — are not range-checked. -/
def parseZoneLenient : List Char → Option (Int × List Char)
  | 'Z' :: rest => some (0, rest)
  | sign :: h1 :: h2 :: colon :: m1 :: m2 :: rest =>
    if (sign = '+' ∨ sign = '-') ∧ colon = ':' ∧ isDigitChar h1 ∧ isDigitChar h2
        ∧ isDigitChar m1 ∧ isDigitChar m2 then
      let hr := (h1.toNat - 48) * 10 + (h2.toNat - 48)
      let mm := (m1.toNat - 48) * 10 + (m2.toNat - 48)
      some (if sign = '-' then -(((hr * 60 + mm) * 60 : Nat) : Int)
        else (((hr * 60 + mm) * 60 : Nat) : Int), rest)
    else none
  | _ => none

/-- The lenient generic layout parser of Go's `time.Parse`, specialized to
the RFC 3339 layout `2006-01-02T15:04:05Z07:00` (the fallback Go runs when
the strict fast path fails): four-digit year, two-digit month/day/minute/
second, one-or-two-digit hour, literal `-`/`T`/`:` separators, an optional
period- or comma-separated fraction, a `Z` or `±hh:mm` zone whose offset is
not range-checked, no trailing text; hour 0–23, minute and second 0–59,
month 1–12, day checked against the month length. -/
def parseRFC3339Lenient (s : List Char) : Option GoTime :=
  (getYear4 s).bind fun yr =>
  (expectChar '-' yr.2).bind fun r2 =>
  (getnum2 r2).bind fun mo =>
  (expectChar '-' mo.2).bind fun r4 =>
  (getnum2 r4).bind fun dy =>
  (expectChar 'T' dy.2).bind fun r6 =>
  (getnum1or2 r6).bind fun hr =>
  if 24 ≤ hr.1 then none else
  (expectChar ':' hr.2).bind fun r8 =>
  (getnum2 r8).bind fun mi =>
  if 60 ≤ mi.1 then none else
  (expectChar ':' mi.2).bind fun r10 =>
  (getnum2 r10).bind fun se =>
  if 60 ≤ se.1 then none else
  (parseZoneLenient (splitFractionLenient se.2).2).bind fun zo =>
  if zo.2 = [] then
    if mo.1 < 1 ∨ 12 < mo.1 then none
    else if dy.1 < 1 ∨ daysIn mo.1 yr.1 < dy.1 then none
    else some (mkInstant yr.1 mo.1 dy.1 hr.1 mi.1 se.1
      (splitFractionLenient se.2).1 zo.1)
  else none

/-- Model of the external call `time.Parse(time.RFC3339, s)` as Go
implements it: the strict fast path first, and when that fails, the
lenient generic layout parse of the RFC 3339 layout. -/
def timeParseRFC3339 (s : List Char) : Option GoTime :=
  match parseRFC3339 s with
  | some t => some t
  | none => parseRFC3339Lenient s

/-- `ConvertStringToIsoDate` from `mongo.go`: call `time.Parse(time.RFC3339,
date)` and propagate its error. -/
def ConvertStringToIsoDate (date : List Char) : Except MongoError GoTime :=
  match timeParseRFC3339 date with
  | none => .error .parseTimeError
  | some parsedTime => .ok parsedTime

/-- The opaque connection session handed back by the external driver call
`mongo.Connect`. -/
structure Session where
  id : Nat
deriving DecidableEq, Repr

/-- `Client` from `mongo.go`: the wrapper holding exactly one driver
session. -/
structure Client where
  client : Session
deriving DecidableEq, Repr

/-- `NewClient` from `mongo.go`: the outcome of the external, synchronous
`mongo.Connect` call is the oracle argument.  On error the failure is logged
and the nil pointer (`none`) is returned; on success the session is wrapped
in a `Client`. -/
def NewClient (connect : Except String Session) : Option Client :=
  match connect with
  | .error _ => none
  | .ok client => some ⟨client⟩

/-- BSON values as far as this model needs them: enough to express the
documents the wrapper builds and forwards. -/
inductive BsonValue where
  | null
  | str (s : String)
  | bin (b : Binary)
  | doc (fields : List (String × BsonValue))
  | arr (elems : List BsonValue)

/-- `bson.D`, an ordered document: a list of key/value pairs. -/
def BsonD : Type := List (String × BsonValue)

/-- `options.ReturnDocument`: which version of the document
`FindOneAndUpdate` asks the server to return. -/
inductive ReturnDocument where
  | before
  | after
deriving DecidableEq, Repr

/-- The single driver invocation a wrapper operation issues (database and
collection resolved per call, as in the source). -/
inductive DriverCall where
  | updateOne (database collection : String) (filter update : BsonValue)
  | updateMany (database collection : String) (filter update : BsonValue)
  | findOneAndUpdate (database collection : String) (filter update : BsonValue)
      (ret : ReturnDocument)

/-- Driver errors as the wrapper sees them: the driver's no-match sentinel
`ErrNoDocuments`, or any other driver error. -/
inductive StoreError where
  | errNoDocuments
  | other (msg : String)
deriving DecidableEq, Repr

/-- `Client.UpdateOne` from `mongo.go`: resolve database and collection and
issue one `UpdateOne` driver call with the caller's update document `data`
passed through unchanged; a driver error is logged and returned, otherwise
nil.  The external driver is the oracle argument. -/
def UpdateOne (driver : DriverCall → Except StoreError Unit)
    (database collection : String) (filter : BsonValue) (data : BsonD) :
    Except StoreError Unit :=
  match driver (.updateOne database collection filter (.doc data)) with
  | .error err => .error err
  | .ok _ => .ok ()

/-- `Client.UpdateMany` from `mongo.go`: builds `update := bson.D{{"$set",
data}}` and issues one `UpdateMany` driver call with that wrapped document;
a driver error is logged and returned, otherwise nil. -/
def UpdateMany (driver : DriverCall → Except StoreError Unit)
    (database collection : String) (filter : BsonValue) (data : BsonD) :
    Except StoreError Unit :=
  let update : BsonD := [("$set", BsonValue.doc data)]
  match driver (.updateMany database collection filter (.doc update)) with
  | .error err => .error err
  | .ok _ => .ok ()

/-- `Client.FindOneAndUpdate` from `mongo.go`: issues one driver call with
`options.FindOneAndUpdate().SetReturnDocument(options.After)`; a driver
error (`result.Err()`) is logged and returned, otherwise the result document
is returned. -/
def FindOneAndUpdate (driver : DriverCall → Except StoreError BsonValue)
    (database collection : String) (filter update : BsonValue) :
    Except StoreError BsonValue :=
  match driver (.findOneAndUpdate database collection filter update .after) with
  | .error err => .error err
  | .ok result => .ok result

/-- Documented contract of the driver and server for `FindOneAndUpdate`,
with the server's query and update semantics abstracted as `matchesFilter`
and `applyUpdate`: the first stored document matching the filter is updated,
and the pre- or post-update document is returned according to the
`ReturnDocument` option; with no match the driver reports
`ErrNoDocuments`. -/
def driverFindOneAndUpdateModel (matchesFilter : BsonValue → Bool)
    (applyUpdate : BsonValue → BsonValue) (store : List BsonValue) :
    DriverCall → Except StoreError BsonValue :=
  fun call =>
    match call with
    | .findOneAndUpdate _ _ _ _ ret =>
      match store.find? matchesFilter with
      | none => .error .errNoDocuments
      | some document =>
        .ok (match ret with
          | .before => document
          | .after => applyUpdate document)
    | _ => .error (.other "unexpected call")

theorem hexDigitVal_lt_16 {c : Char} {v : Nat} (h : hexDigitVal c = some v) :
    v < 16 := by
  unfold hexDigitVal at h
  by_cases h1 : 48 ≤ c.toNat ∧ c.toNat ≤ 57
  · rw [if_pos h1] at h
    simp only [Option.some.injEq] at h
    omega
  rw [if_neg h1] at h
  by_cases h2 : 97 ≤ c.toNat ∧ c.toNat ≤ 102
  · rw [if_pos h2] at h
    simp only [Option.some.injEq] at h
    omega
  rw [if_neg h2] at h
  by_cases h3 : 65 ≤ c.toNat ∧ c.toNat ≤ 70
  · rw [if_pos h3] at h
    simp only [Option.some.injEq] at h
    omega
  rw [if_neg h3] at h
  exact absurd h (by simp)

theorem isHexDigit_iff {c : Char} :
    isHexDigit c = true ↔ ∃ v, hexDigitVal c = some v := by
  unfold isHexDigit hexDigitVal
  rw [decide_eq_true_iff]
  constructor
  · rintro (h1 | h2 | h3)
    · exact ⟨c.toNat - 48, by rw [if_pos h1]⟩
    · refine ⟨c.toNat - 97 + 10, ?_⟩
      rw [if_neg (by omega), if_pos h2]
    · refine ⟨c.toNat - 65 + 10, ?_⟩
      rw [if_neg (by omega), if_neg (by omega), if_pos h3]
  · rintro ⟨v, hv⟩
    by_cases h1 : 48 ≤ c.toNat ∧ c.toNat ≤ 57
    · exact Or.inl h1
    by_cases h2 : 97 ≤ c.toNat ∧ c.toNat ≤ 102
    · exact Or.inr (Or.inl h2)
    by_cases h3 : 65 ≤ c.toNat ∧ c.toNat ≤ 70
    · exact Or.inr (Or.inr h3)
    rw [if_neg h1, if_neg h2, if_neg h3] at hv
    exact absurd hv (by simp)

theorem hexDigitVal_hexDigitChar : ∀ v, v < 16 →
    hexDigitVal (hexDigitChar v) = some v := by decide

theorem hexDigitChar_lower : ∀ v, v < 16 →
    isHexDigit (hexDigitChar v) = true ∧ toLowerHex (hexDigitChar v) = hexDigitChar v := by
  decide

theorem hexDigitChar_eq_toLowerHex {c : Char} {v : Nat}
    (h : hexDigitVal c = some v) : hexDigitChar v = toLowerHex c := by
  have hc : c = Char.ofNat c.toNat := (Char.ofNat_toNat c).symm
  unfold hexDigitVal at h
  unfold toLowerHex
  by_cases h1 : 48 ≤ c.toNat ∧ c.toNat ≤ 57
  · rw [if_pos h1] at h
    simp only [Option.some.injEq] at h
    subst h
    rw [if_neg (by omega)]
    conv_rhs => rw [hc]
    generalize hn : c.toNat = n
    have hb1 : 48 ≤ n := by omega
    have hb2 : n ≤ 57 := by omega
    interval_cases n <;> decide
  rw [if_neg h1] at h
  by_cases h2 : 97 ≤ c.toNat ∧ c.toNat ≤ 102
  · rw [if_pos h2] at h
    simp only [Option.some.injEq] at h
    subst h
    rw [if_neg (by omega)]
    conv_rhs => rw [hc]
    generalize hn : c.toNat = n
    have hb1 : 97 ≤ n := by omega
    have hb2 : n ≤ 102 := by omega
    interval_cases n <;> decide
  rw [if_neg h2] at h
  by_cases h3 : 65 ≤ c.toNat ∧ c.toNat ≤ 70
  · rw [if_pos h3] at h
    simp only [Option.some.injEq] at h
    subst h
    rw [if_pos h3]
    generalize hn : c.toNat = n
    have hb1 : 65 ≤ n := by omega
    have hb2 : n ≤ 70 := by omega
    interval_cases n <;> decide
  rw [if_neg h3] at h
  exact absurd h (by simp)

theorem hexEncode_length (l : List Nat) : (hexEncode l).length = 2 * l.length := by
  induction l with
  | nil => rfl
  | cons b t ih =>
    simp only [hexEncode, List.length_cons, ih]
    omega

theorem hexEncode_mem (l : List Nat) (h : ∀ b ∈ l, b < 256) :
    ∀ c ∈ hexEncode l, isHexDigit c = true ∧ toLowerHex c = c := by
  induction l with
  | nil => intro c hc; simp [hexEncode] at hc
  | cons b t ih =>
    intro c hc
    have hb : b < 256 := h b (by simp)
    simp only [hexEncode, List.mem_cons] at hc
    rcases hc with rfl | rfl | hc
    · exact hexDigitChar_lower _ (by omega)
    · exact hexDigitChar_lower _ (by omega)
    · exact ih (fun x hx => h x (by simp [hx])) c hc

theorem hexDecode_hexEncode (l : List Nat) (h : ∀ b ∈ l, b < 256) :
    hexDecode (hexEncode l) = some l := by
  induction l with
  | nil => rfl
  | cons b t ih =>
    have hb : b < 256 := h b (by simp)
    have h16 : b / 16 < 16 := by omega
    have hm : b % 16 < 16 := by omega
    have hbyte : 16 * (b / 16) + b % 16 = b := by omega
    simp only [hexEncode, hexDecode, hexDigitVal_hexDigitChar _ h16,
      hexDigitVal_hexDigitChar _ hm, ih (fun x hx => h x (by simp [hx])), hbyte]

theorem hexEncode_of_hexDecode : ∀ (bytes : List Nat) (g : List Char),
    hexDecode g = some bytes →
    hexEncode bytes = g.map toLowerHex ∧ g.length = 2 * bytes.length ∧
      ∀ b ∈ bytes, b < 256 := by
  intro bytes
  induction bytes with
  | nil =>
    intro g hg
    rcases g with _ | ⟨c1, _ | ⟨c2, rest⟩⟩
    · simp [hexEncode]
    · simp [hexDecode] at hg
    · rcases h1 : hexDigitVal c1 with _ | hi <;> rcases h2 : hexDigitVal c2 with _ | lo <;>
        rcases h3 : hexDecode rest with _ | bs <;>
        simp [hexDecode, h1, h2, h3] at hg
  | cons b bs ih =>
    intro g hg
    rcases g with _ | ⟨c1, _ | ⟨c2, rest⟩⟩
    · simp [hexDecode] at hg
    · simp [hexDecode] at hg
    · rcases h1 : hexDigitVal c1 with _ | hi <;> rcases h2 : hexDigitVal c2 with _ | lo <;>
        rcases h3 : hexDecode rest with _ | bs2 <;>
        simp only [hexDecode, h1, h2, h3, Option.some.injEq, List.cons.injEq,
          reduceCtorEq] at hg
      obtain ⟨rfl, rfl⟩ := hg
      have hhi : hi < 16 := hexDigitVal_lt_16 h1
      have hlo : lo < 16 := hexDigitVal_lt_16 h2
      obtain ⟨ihe, ihl, ihb⟩ := ih rest h3
      refine ⟨?_, ?_, ?_⟩
      · have hdiv : (16 * hi + lo) / 16 = hi := by omega
        have hmod : (16 * hi + lo) % 16 = lo := by omega
        simp only [hexEncode, hdiv, hmod, ihe, List.map_cons, List.cons.injEq]
        exact ⟨hexDigitChar_eq_toLowerHex h1, hexDigitChar_eq_toLowerHex h2, trivial⟩
      · simp only [List.length_cons, ihl]
        omega
      · intro x hx
        rcases List.mem_cons.mp hx with rfl | hx
        · omega
        · exact ihb x hx

theorem hexDecode_isSome : ∀ (k : Nat) (g : List Char), g.length = 2 * k →
    (∀ c ∈ g, isHexDigit c = true) →
    ∃ bytes, hexDecode g = some bytes ∧ bytes.length = k := by
  intro k
  induction k with
  | zero =>
    intro g hlen _
    rcases g with _ | ⟨c, t⟩
    · exact ⟨[], rfl, rfl⟩
    · simp at hlen
  | succ k ih =>
    intro g hlen hhex
    rcases g with _ | ⟨c1, _ | ⟨c2, rest⟩⟩
    · simp at hlen
    · simp at hlen; omega
    · obtain ⟨v1, hv1⟩ := isHexDigit_iff.mp (hhex c1 (by simp))
      obtain ⟨v2, hv2⟩ := isHexDigit_iff.mp (hhex c2 (by simp))
      obtain ⟨bytes, hb, hbl⟩ := ih rest (by simp at hlen; omega)
        (fun c hc => hhex c (by simp [hc]))
      exact ⟨(16 * v1 + v2) :: bytes, by simp [hexDecode, hv1, hv2, hb],
        by simp [hbl]⟩

theorem takeHex_append : ∀ (g r : List Char), (∀ c ∈ g, isHexDigit c = true) →
    takeHex g.length (g ++ r) = some (g, r) := by
  intro g
  induction g with
  | nil => intro r _; rfl
  | cons c t ih =>
    intro r hhex
    have hc : isHexDigit c = true := hhex c (by simp)
    have ht := ih r (fun x hx => hhex x (by simp [hx]))
    show takeHex (t.length + 1) (c :: (t ++ r)) = some (c :: t, r)
    simp only [takeHex, hc, if_true, ht]

theorem takeHex_eq_some : ∀ (n : Nat) (s g r : List Char),
    takeHex n s = some (g, r) →
    g.length = n ∧ (∀ c ∈ g, isHexDigit c = true) ∧ s = g ++ r := by
  intro n
  induction n with
  | zero =>
    intro s g r h
    simp only [takeHex, Option.some.injEq, Prod.mk.injEq] at h
    obtain ⟨hg, hr⟩ := h
    subst hg
    subst hr
    exact ⟨rfl, by simp, by simp⟩
  | succ n ih =>
    intro s g r h
    rcases s with _ | ⟨c, t⟩
    · simp [takeHex] at h
    · simp only [takeHex] at h
      by_cases hc : isHexDigit c
      · rw [if_pos hc] at h
        rcases ht : takeHex n t with _ | ⟨g2, r2⟩
        · rw [ht] at h; simp at h
        · rw [ht] at h
          simp only [Option.some.injEq, Prod.mk.injEq] at h
          obtain ⟨hg, hr⟩ := h
          subst hg
          subst hr
          obtain ⟨hl, hh, hs⟩ := ih t g2 r2 ht
          refine ⟨by simp [hl], ?_, by simp [hs]⟩
          intro x hx
          rcases List.mem_cons.mp hx with rfl | hx
          · exact hc
          · exact hh x hx
      · rw [if_neg hc] at h
        simp at h

theorem skipDash_dashOpt (r : List Char) : ∃ d, r = dashOpt d ++ skipDash r := by
  rcases r with _ | ⟨c, t⟩
  · exact ⟨false, rfl⟩
  · by_cases hc : c = '-'
    · subst hc
      exact ⟨true, by simp [skipDash, dashOpt]⟩
    · exact ⟨false, by simp [skipDash, dashOpt, hc]⟩

theorem skipDash_dash (t : List Char) : skipDash ('-' :: t) = t := by
  simp [skipDash]

theorem skipDash_cons_hex {c : Char} (t : List Char) (hc : isHexDigit c = true) :
    skipDash (c :: t) = c :: t := by
  have hne : c ≠ '-' := by
    rintro rfl
    exact absurd hc (by decide)
  simp [skipDash, hne]

theorem skipDash_hex_head {g r : List Char} (hg : g ≠ [])
    (hhex : ∀ c ∈ g, isHexDigit c = true) : skipDash (g ++ r) = g ++ r := by
  rcases g with _ | ⟨c, t⟩
  · exact absurd rfl hg
  · exact skipDash_cons_hex _ (hhex c (by simp))

theorem uuidGroups_build (g1 g2 g3 g4 g5 : List Char) (d1 d2 d3 d4 : Bool)
    (h1 : g1.length = 8) (h2 : g2.length = 4) (h3 : g3.length = 4)
    (h4 : g4.length = 4) (h5 : g5.length = 12)
    (hhex : ∀ c ∈ g1 ++ (g2 ++ (g3 ++ (g4 ++ g5))), isHexDigit c = true) :
    uuidGroups (g1 ++ (dashOpt d1 ++ (g2 ++ (dashOpt d2 ++ (g3 ++ (dashOpt d3 ++
        (g4 ++ (dashOpt d4 ++ g5))))))))
      = some (g1 ++ (g2 ++ (g3 ++ (g4 ++ g5)))) := by
  have hx1 : ∀ c ∈ g1, isHexDigit c = true := fun c hc => hhex c (by simp [hc])
  have hx2 : ∀ c ∈ g2, isHexDigit c = true := fun c hc => hhex c (by simp [hc])
  have hx3 : ∀ c ∈ g3, isHexDigit c = true := fun c hc => hhex c (by simp [hc])
  have hx4 : ∀ c ∈ g4, isHexDigit c = true := fun c hc => hhex c (by simp [hc])
  have hx5 : ∀ c ∈ g5, isHexDigit c = true := fun c hc => hhex c (by simp [hc])
  have hskip : ∀ (d : Bool) (g r : List Char), g.length ≠ 0 →
      (∀ c ∈ g, isHexDigit c = true) → skipDash (dashOpt d ++ (g ++ r)) = g ++ r := by
    intro d g r hg hh
    cases d
    · show skipDash ([] ++ (g ++ r)) = g ++ r
      rw [List.nil_append]
      exact skipDash_hex_head (by intro he; apply hg; simp [he]) hh
    · show skipDash ('-' :: (g ++ r)) = g ++ r
      exact skipDash_dash _
  have t1 : takeHex 8 (g1 ++ (dashOpt d1 ++ (g2 ++ (dashOpt d2 ++ (g3 ++ (dashOpt d3 ++
      (g4 ++ (dashOpt d4 ++ g5))))))))
      = some (g1, dashOpt d1 ++ (g2 ++ (dashOpt d2 ++ (g3 ++ (dashOpt d3 ++
        (g4 ++ (dashOpt d4 ++ g5))))))) := by
    rw [← h1]
    exact takeHex_append _ _ hx1
  have s1 : skipDash (dashOpt d1 ++ (g2 ++ (dashOpt d2 ++ (g3 ++ (dashOpt d3 ++
      (g4 ++ (dashOpt d4 ++ g5)))))))
      = g2 ++ (dashOpt d2 ++ (g3 ++ (dashOpt d3 ++ (g4 ++ (dashOpt d4 ++ g5))))) :=
    hskip d1 g2 _ (by omega) hx2
  have t2 : takeHex 4 (g2 ++ (dashOpt d2 ++ (g3 ++ (dashOpt d3 ++
      (g4 ++ (dashOpt d4 ++ g5))))))
      = some (g2, dashOpt d2 ++ (g3 ++ (dashOpt d3 ++ (g4 ++ (dashOpt d4 ++ g5))))) := by
    rw [← h2]
    exact takeHex_append _ _ hx2
  have s2 : skipDash (dashOpt d2 ++ (g3 ++ (dashOpt d3 ++ (g4 ++ (dashOpt d4 ++ g5)))))
      = g3 ++ (dashOpt d3 ++ (g4 ++ (dashOpt d4 ++ g5))) :=
    hskip d2 g3 _ (by omega) hx3
  have t3 : takeHex 4 (g3 ++ (dashOpt d3 ++ (g4 ++ (dashOpt d4 ++ g5))))
      = some (g3, dashOpt d3 ++ (g4 ++ (dashOpt d4 ++ g5))) := by
    rw [← h3]
    exact takeHex_append _ _ hx3
  have s3 : skipDash (dashOpt d3 ++ (g4 ++ (dashOpt d4 ++ g5)))
      = g4 ++ (dashOpt d4 ++ g5) :=
    hskip d3 g4 _ (by omega) hx4
  have t4 : takeHex 4 (g4 ++ (dashOpt d4 ++ g5)) = some (g4, dashOpt d4 ++ g5) := by
    rw [← h4]
    exact takeHex_append _ _ hx4
  have s4 : skipDash (dashOpt d4 ++ g5) = g5 := by
    have := hskip d4 g5 [] (by omega) hx5
    simpa using this
  have t5 : takeHex 12 g5 = some (g5, ([] : List Char)) := by
    have := takeHex_append g5 [] hx5
    rw [List.append_nil, h5] at this
    exact this
  simp only [uuidGroups, t1, s1, t2, s2, t3, s3, t4, s4, t5, if_pos rfl]
  simp [List.append_assoc]

theorem uuidGroups_eq_some {s g : List Char} (h : uuidGroups s = some g) :
    g.length = 32 ∧ (∀ c ∈ g, isHexDigit c = true) ∧
    ∃ (d1 d2 d3 d4 : Bool) (g1 g2 g3 g4 g5 : List Char),
      g = g1 ++ (g2 ++ (g3 ++ (g4 ++ g5))) ∧
      g1.length = 8 ∧ g2.length = 4 ∧ g3.length = 4 ∧ g4.length = 4 ∧
      g5.length = 12 ∧
      s = g1 ++ (dashOpt d1 ++ (g2 ++ (dashOpt d2 ++ (g3 ++ (dashOpt d3 ++
        (g4 ++ (dashOpt d4 ++ g5))))))) := by
  unfold uuidGroups at h
  split at h
  · exact absurd h (by simp)
  next g1 r1 ht1 =>
  split at h
  · exact absurd h (by simp)
  next g2 r2 ht2 =>
  split at h
  · exact absurd h (by simp)
  next g3 r3 ht3 =>
  split at h
  · exact absurd h (by simp)
  next g4 r4 ht4 =>
  split at h
  · exact absurd h (by simp)
  next g5 r5 ht5 =>
  split at h
  case isFalse => exact absurd h (by simp)
  case isTrue hr5 =>
  subst hr5
  simp only [Option.some.injEq] at h
  subst h
  obtain ⟨l1, x1, e1⟩ := takeHex_eq_some _ _ _ _ ht1
  obtain ⟨l2, x2, e2⟩ := takeHex_eq_some _ _ _ _ ht2
  obtain ⟨l3, x3, e3⟩ := takeHex_eq_some _ _ _ _ ht3
  obtain ⟨l4, x4, e4⟩ := takeHex_eq_some _ _ _ _ ht4
  obtain ⟨l5, x5, e5⟩ := takeHex_eq_some _ _ _ _ ht5
  obtain ⟨d1, hd1⟩ := skipDash_dashOpt r1
  obtain ⟨d2, hd2⟩ := skipDash_dashOpt r2
  obtain ⟨d3, hd3⟩ := skipDash_dashOpt r3
  obtain ⟨d4, hd4⟩ := skipDash_dashOpt r4
  rw [List.append_nil] at e5
  refine ⟨?_, ?_, d1, d2, d3, d4, g1, g2, g3, g4, g5,
    by simp [List.append_assoc], l1, l2, l3, l4, l5, ?_⟩
  · simp only [List.length_append, l1, l2, l3, l4, l5]
  · intro c hc
    simp only [List.append_assoc, List.mem_append] at hc
    rcases hc with hc | hc | hc | hc | hc
    · exact x1 c hc
    · exact x2 c hc
    · exact x3 c hc
    · exact x4 c hc
    · exact x5 c hc
  · rw [e1, hd1, e2, hd2, e3, hd3, e4, hd4, e5]

theorem uuidGroups_insertDashes (l : List Char) (hlen : l.length = 32)
    (hhex : ∀ c ∈ l, isHexDigit c = true) :
    uuidGroups (insertDashes l) = some l := by
  have h20 : (l.drop 20).take 12 = l.drop 20 := by
    have hd : (l.drop 20).length = 12 := by simp [hlen]
    rw [← hd, List.take_length]
  have e16 : (l.drop 16).take 4 ++ l.drop 20 = l.drop 16 := by
    have h := List.take_append_drop 4 (l.drop 16)
    rw [List.drop_drop] at h
    norm_num at h
    exact h
  have e12 : (l.drop 12).take 4 ++ l.drop 16 = l.drop 12 := by
    have h := List.take_append_drop 4 (l.drop 12)
    rw [List.drop_drop] at h
    norm_num at h
    exact h
  have e8 : (l.drop 8).take 4 ++ l.drop 12 = l.drop 8 := by
    have h := List.take_append_drop 4 (l.drop 8)
    rw [List.drop_drop] at h
    norm_num at h
    exact h
  have hsplit : l.take 8 ++ ((l.drop 8).take 4 ++ ((l.drop 12).take 4 ++
      ((l.drop 16).take 4 ++ (l.drop 20).take 12))) = l := by
    rw [h20, e16, e12, e8, List.take_append_drop]
  have hb := uuidGroups_build (l.take 8) ((l.drop 8).take 4) ((l.drop 12).take 4)
    ((l.drop 16).take 4) ((l.drop 20).take 12) true true true true
    (by simp [hlen]) (by simp [hlen]) (by simp [hlen]) (by simp [hlen])
    (by simp [hlen])
    (by rw [hsplit]; exact hhex)
  rw [hsplit] at hb
  have hshape : insertDashes l = l.take 8 ++ (dashOpt true ++ ((l.drop 8).take 4 ++
      (dashOpt true ++ ((l.drop 12).take 4 ++ (dashOpt true ++
        ((l.drop 16).take 4 ++ (dashOpt true ++ (l.drop 20).take 12))))))) := by
    simp [insertDashes, dashOpt]
  rw [hshape]
  exact hb

/-- C1: for every `Identifier` with subtype 4 and a 16-byte payload,
`ConvertUuidToString` succeeds and `ConvertStringToUuid` of the resulting
string succeeds and returns a `Binary` bit-equal to the original (subtype 4,
same 16 bytes). -/
theorem convertUuid_roundTrip (bin : Binary) (hsub : bin.Subtype = 4)
    (hlen : bin.Data.length = 16) (hbytes : ∀ b ∈ bin.Data, b < 256) :
    ∃ s, ConvertUuidToString bin = .ok s ∧ ConvertStringToUuid s = .ok bin := by
  refine ⟨insertDashes (hexEncode bin.Data), ?_, ?_⟩
  · unfold ConvertUuidToString
    rw [if_neg (by simp [hsub]), if_neg (by simp [hlen])]
  · have hl : (hexEncode bin.Data).length = 32 := by
      rw [hexEncode_length, hlen]
    have hx : ∀ c ∈ hexEncode bin.Data, isHexDigit c = true :=
      fun c hc => (hexEncode_mem _ hbytes c hc).1
    simp only [ConvertStringToUuid, uuidGroups_insertDashes _ hl hx,
      hexDecode_hexEncode _ hbytes]
    rw [← hsub]

/-- Witness for C1 at a concrete 16-byte payload. -/
theorem convertUuid_roundTrip_witness :
    ∃ s, ConvertUuidToString ⟨4, [0, 17, 34, 51, 68, 85, 102, 119,
        136, 153, 170, 187, 204, 221, 238, 255]⟩ = .ok s ∧
      ConvertStringToUuid s = .ok ⟨4, [0, 17, 34, 51, 68, 85, 102, 119,
        136, 153, 170, 187, 204, 221, 238, 255]⟩ :=
  convertUuid_roundTrip _ (by decide) (by decide) (by decide)

/-- C2: every string matching the (dashes-optional) pattern converts
successfully, and re-stringifying yields the canonical lower-case dashed
form: the dash-stripped digits `g`, lower-cased, with the four dashes
re-inserted. -/
theorem convertStringToUuid_normalizes (s g : List Char)
    (h : uuidGroups s = some g) :
    ∃ bytes, ConvertStringToUuid s = .ok ⟨4, bytes⟩ ∧
      ConvertUuidToString ⟨4, bytes⟩
        = .ok (insertDashes (List.map toLowerHex g)) := by
  obtain ⟨hl, hx, -⟩ := uuidGroups_eq_some h
  obtain ⟨bytes, hdec, hblen⟩ := hexDecode_isSome 16 g (by omega) hx
  refine ⟨bytes, ?_, ?_⟩
  · simp only [ConvertStringToUuid, h, hdec]
  · obtain ⟨henc, -, -⟩ := hexEncode_of_hexDecode bytes g hdec
    unfold ConvertUuidToString
    rw [if_neg (by simp), if_neg (by simp [hblen])]
    rw [henc]

/-- Witness for C2 at a concrete upper-case dashed input. -/
theorem convertStringToUuid_normalizes_witness :
    ∃ bytes,
      ConvertStringToUuid "550E8400-E29B-41D4-A716-446655440000".data
        = .ok ⟨4, bytes⟩ ∧
      ConvertUuidToString ⟨4, bytes⟩
        = .ok (insertDashes (List.map toLowerHex
            "550E8400E29B41D4A716446655440000".data)) :=
  convertStringToUuid_normalizes _ _ (by decide)

/-- C3 counterexample: a partially dashed 33-character layout (a dash after
the first group only) is accepted by `ConvertStringToUuid`, contradicting
the claim that such inputs fail with a FormatError and that only the fully
dashed 36-character and fully undashed 32-character layouts are accepted. -/
theorem convertStringToUuid_partialDash_accepted :
    ConvertStringToUuid "550e8400-e29b41d4a716446655440000".data
      = .ok ⟨4, [0x55, 0x0e, 0x84, 0x00, 0xe2, 0x9b, 0x41, 0xd4,
                 0xa7, 0x16, 0x44, 0x66, 0x55, 0x44, 0x00, 0x00]⟩ := by decide

/-- C3 (amended): `ConvertStringToUuid` succeeds exactly on the strings with
32 hex digits in groups of 8-4-4-4-12 and a dash optionally present,
independently, at each of the four group boundaries; every other string —
wrong total hex-digit count, non-hex characters, dashes elsewhere — fails
with a FormatError. -/
theorem convertStringToUuid_accepts_iff (s : List Char) :
    ((∃ b, ConvertStringToUuid s = .ok b) ↔
      ∃ (d1 d2 d3 d4 : Bool) (g1 g2 g3 g4 g5 : List Char),
        g1.length = 8 ∧ g2.length = 4 ∧ g3.length = 4 ∧ g4.length = 4 ∧
        g5.length = 12 ∧
        (∀ c ∈ g1 ++ (g2 ++ (g3 ++ (g4 ++ g5))), isHexDigit c = true) ∧
        s = g1 ++ (dashOpt d1 ++ (g2 ++ (dashOpt d2 ++ (g3 ++ (dashOpt d3 ++
          (g4 ++ (dashOpt d4 ++ g5)))))))) ∧
    ((∃ b, ConvertStringToUuid s = .ok b) ∨
      ConvertStringToUuid s = .error (.formatError s)) := by
  have hmain : ∀ g, uuidGroups s = some g → ∃ b, ConvertStringToUuid s = .ok b := by
    intro g hg
    obtain ⟨hl, hx, -⟩ := uuidGroups_eq_some hg
    obtain ⟨bytes, hdec, -⟩ := hexDecode_isSome 16 g (by omega) hx
    exact ⟨⟨4, bytes⟩, by simp only [ConvertStringToUuid, hg, hdec]⟩
  constructor
  · constructor
    · rintro ⟨b, hb⟩
      unfold ConvertStringToUuid at hb
      rcases hg : uuidGroups s with _ | g
      · rw [hg] at hb
        simp at hb
      · obtain ⟨hl, hx, d1, d2, d3, d4, g1, g2, g3, g4, g5, hgeq, l1, l2, l3, l4,
          l5, hseq⟩ := uuidGroups_eq_some hg
        exact ⟨d1, d2, d3, d4, g1, g2, g3, g4, g5, l1, l2, l3, l4, l5,
          fun c hc => hx c (by rw [hgeq]; exact hc), hseq⟩
    · rintro ⟨d1, d2, d3, d4, g1, g2, g3, g4, g5, l1, l2, l3, l4, l5, hhex, rfl⟩
      exact hmain _ (uuidGroups_build g1 g2 g3 g4 g5 d1 d2 d3 d4 l1 l2 l3 l4 l5 hhex)
  · rcases hg : uuidGroups s with _ | g
    · refine Or.inr ?_
      unfold ConvertStringToUuid
      rw [hg]
    · exact Or.inl (hmain g hg)

/-- C5: the DecodeError branch of `ConvertStringToUuid` is unreachable: no
input whatsoever produces it, because once the pattern has matched, the
joined capture groups are exactly 32 hex characters and hex decoding cannot
fail. -/
theorem convertStringToUuid_no_decodeError (s : List Char) :
    ConvertStringToUuid s ≠ .error .decodeError := by
  unfold ConvertStringToUuid
  rcases hg : uuidGroups s with _ | g
  · simp
  · obtain ⟨hl, hx, -⟩ := uuidGroups_eq_some hg
    obtain ⟨bytes, hdec, -⟩ := hexDecode_isSome 16 g (by omega) hx
    simp [hdec]

/-- C4: `ConvertUuidToString` fails with UnsupportedSubtypeError whenever
the subtype is not 4, fails with InvalidLengthError whenever the subtype is
4 but the payload is not 16 bytes, and succeeds on subtype 4 with a 16-byte
payload, producing 32 lower-case hex digits grouped 8-4-4-4-12 by
dashes. -/
theorem convertUuidToString_errors (bin : Binary)
    (hbytes : ∀ b ∈ bin.Data, b < 256) :
    (bin.Subtype ≠ 4 →
      ConvertUuidToString bin = .error (.unsupportedSubtype bin.Subtype)) ∧
    (bin.Subtype = 4 → bin.Data.length ≠ 16 →
      ConvertUuidToString bin = .error (.invalidLength bin.Data.length)) ∧
    (bin.Subtype = 4 → bin.Data.length = 16 →
      ∃ hexStr, ConvertUuidToString bin = .ok (insertDashes hexStr) ∧
        hexStr.length = 32 ∧
        ∀ c ∈ hexStr, isHexDigit c = true ∧ toLowerHex c = c) := by
  refine ⟨?_, ?_, ?_⟩
  · intro hs
    unfold ConvertUuidToString
    rw [if_pos hs]
  · intro hs hl
    unfold ConvertUuidToString
    rw [if_neg (by simp [hs]), if_pos hl]
  · intro hs hl
    refine ⟨hexEncode bin.Data, ?_, ?_, hexEncode_mem _ hbytes⟩
    · unfold ConvertUuidToString
      rw [if_neg (by simp [hs]), if_neg (by simp [hl])]
    · rw [hexEncode_length, hl]

/-- Witness for C4: a subtype-3 input is rejected with the subtype error. -/
theorem convertUuidToString_errors_witness :
    ConvertUuidToString ⟨3, List.replicate 16 0⟩
      = .error (.unsupportedSubtype 3) :=
  (convertUuidToString_errors ⟨3, List.replicate 16 0⟩ (by decide)).1 (by decide)

/-- C6: for every filter and update document, `UpdateMany` issues its single
driver call with the caller's update document wrapped as a `$set` operation,
while `UpdateOne` issues its single driver call with the update document
passed through unchanged; in both cases the wrapper returns exactly the
driver's response. -/
theorem updateMany_wraps_set (driver : DriverCall → Except StoreError Unit)
    (database collection : String) (filter : BsonValue) (data : BsonD) :
    UpdateMany driver database collection filter data
      = driver (.updateMany database collection filter
          (.doc [("$set", BsonValue.doc data)])) ∧
    UpdateOne driver database collection filter data
      = driver (.updateOne database collection filter (.doc data)) := by
  constructor
  · rcases h : driver (.updateMany database collection filter
      (.doc [("$set", BsonValue.doc data)])) with err | u
    · simp [UpdateMany, h]
    · simp [UpdateMany, h]
  · rcases h : driver (.updateOne database collection filter (.doc data)) with err | u
    · simp [UpdateOne, h]
    · simp [UpdateOne, h]

/-- C7: `NewClient` yields either a null handle or a fully connected one:
every failure of the synchronous connect call produces `none` (the reason is
only logged, never propagated as a structured error), and every success
produces a handle wrapping exactly the established session; no partially
initialized handle is possible. -/
theorem newClient_null_or_connected (connect : Except String Session) :
    (∀ e, connect = .error e → NewClient connect = none) ∧
    (∀ s, connect = .ok s → NewClient connect = some ⟨s⟩) ∧
    (NewClient connect = none ∨
      ∃ s, connect = .ok s ∧ NewClient connect = some ⟨s⟩) := by
  rcases connect with e | s
  · refine ⟨fun _ _ => rfl, fun s h => by simp at h, Or.inl rfl⟩
  · refine ⟨fun e h => by simp at h, fun s2 h => ?_, Or.inr ⟨s, rfl, rfl⟩⟩
    injection h with h2
    subst h2
    rfl

/-- C8 counterexample: a comma fractional-second separator deviates from
RFC 3339 (which allows only a period), yet `ConvertStringToIsoDate` accepts
it — `time.Parse`'s lenient fallback parses it — instead of failing with a
FormatError as the claim requires. -/
theorem convertStringToIsoDate_comma_accepted :
    ConvertStringToIsoDate "2024-05-11T11:11:11,5Z".data
      = .ok ⟨1715425871, 500000000⟩ := by decide

/-- C8 (amended): `ConvertStringToIsoDate` parses with `time.Parse`'s
RFC 3339 handling, which is not strict: every string the parser accepts
yields the parsed instant and every string it rejects yields the
FormatError; every strictly valid RFC 3339 string is accepted with its
instant, and deviations such as a missing timezone, a wrong date/time
separator, or an invalid calendar date still fail — but the lenient
fallback also accepts some deviations: a single-digit hour, a comma
fractional-second separator, and an out-of-range numeric zone offset. -/
theorem convertStringToIsoDate_lenient :
    (∀ s t, timeParseRFC3339 s = some t → ConvertStringToIsoDate s = .ok t) ∧
    (∀ s, timeParseRFC3339 s = none →
      ConvertStringToIsoDate s = .error .parseTimeError) ∧
    (∀ s t, parseRFC3339 s = some t → ConvertStringToIsoDate s = .ok t) ∧
    ConvertStringToIsoDate "2024-05-11T11:11:11Z".data = .ok ⟨1715425871, 0⟩ ∧
    ConvertStringToIsoDate "2024-05-11T11:11:11".data = .error .parseTimeError ∧
    ConvertStringToIsoDate "2024-05-11 11:11:11Z".data = .error .parseTimeError ∧
    ConvertStringToIsoDate "2024-02-30T00:00:00Z".data = .error .parseTimeError ∧
    ConvertStringToIsoDate "2024-05-11T1:11:11Z".data = .ok ⟨1715389871, 0⟩ ∧
    ConvertStringToIsoDate "2024-05-11T11:11:11+24:00".data
      = .ok ⟨1715339471, 0⟩ := by
  refine ⟨?_, ?_, ?_, by decide, by decide, by decide, by decide, by decide,
    by decide⟩
  · intro s t h
    simp [ConvertStringToIsoDate, h]
  · intro s h
    simp [ConvertStringToIsoDate, h]
  · intro s t h
    simp [ConvertStringToIsoDate, timeParseRFC3339, h]

/-- C9: `FindOneAndUpdate` asks the driver for the post-update document
(`ReturnDocument.After`): under the driver's documented contract, when some
stored document matches the filter the wrapper returns that document with
the update applied — not its pre-update state — and when no document
matches it returns the driver's error. -/
theorem findOneAndUpdate_returns_after (matchesFilter : BsonValue → Bool)
    (applyUpdate : BsonValue → BsonValue) (store : List BsonValue)
    (database collection : String) (filter update : BsonValue) :
    (∀ document, store.find? matchesFilter = some document →
      FindOneAndUpdate (driverFindOneAndUpdateModel matchesFilter applyUpdate store)
        database collection filter update = .ok (applyUpdate document)) ∧
    (store.find? matchesFilter = none →
      FindOneAndUpdate (driverFindOneAndUpdateModel matchesFilter applyUpdate store)
        database collection filter update = .error .errNoDocuments) := by
  constructor
  · intro document hfind
    simp [FindOneAndUpdate, driverFindOneAndUpdateModel, hfind]
  · intro hfind
    simp [FindOneAndUpdate, driverFindOneAndUpdateModel, hfind]

/-- C10: on success `GenerateUuid` returns exactly the 16 bytes drawn from
the random source, tagged subtype 4 and otherwise unmodified — no RFC 4122
version or variant bits are set, so some outcomes are not well-formed
version-4 UUIDs despite the subtype-4 tag. -/
theorem generateUuid_raw_bytes (bytes : List Nat) :
    GenerateUuid (.ok bytes) = .ok ⟨4, bytes⟩ ∧
    (∀ e, GenerateUuid (.error e) = .error e) ∧
    ∃ raw : List Nat, raw.length = 16 ∧ (∀ b ∈ raw, b < 256) ∧
      GenerateUuid (.ok raw) = .ok ⟨4, raw⟩ ∧
      isRfc4122Version4 ⟨4, raw⟩ = false := by
  exact ⟨rfl, fun e => rfl, List.replicate 16 0, by decide, by decide, rfl, by decide⟩


end XK6Mongo
